import Mathlib

/-!
Verification of the spreadsheet-to-JSONL conversion service and the
conversation-display helpers of the dashboard repository.

The definitions below are a shallow embedding of the JavaScript /
TypeScript sources:
  * `src/server/routes/files.js` — the `POST /conversion` endpoint
    (translation helper, row loop, temp-file lifecycle);
  * `src/src/pages/AnnotationReviewPage.tsx` — `parseConversation`;
  * the `getConversationTranscripts` client (pagination heuristic).
Machine-level details (HTTP transport, the filesystem) appear as explicit
parameters: a translation call is a `String → Option String` (`none` is a
failed HTTP call), filesystem unlink success is a `Bool`, and the ambient
clock is the `now : String` argument.
-/

namespace LovApp

/-! ### Cell values and rows (XLSX.utils.sheet_to_json output) -/

/-- A JavaScript cell value as produced by `XLSX.utils.sheet_to_json`:
a string or a (finite, integral) number. -/
inductive JsVal where
  | str (s : String)
  | num (n : Int)
deriving DecidableEq, Repr

/-- JavaScript truthiness of a cell value: the empty string and `0` are falsy. -/
def JsVal.truthy : JsVal → Bool
  | .str s => s ≠ ""
  | .num n => n ≠ 0

/-- Truthiness of a possibly-absent field (`undefined` is falsy). -/
def jsTruthy : Option JsVal → Bool
  | none => false
  | some v => v.truthy

/-- JavaScript `a || b` on a possibly-absent cell value. -/
def jsOr (a : Option JsVal) (b : JsVal) : JsVal :=
  match a with
  | some v => if v.truthy then v else b
  | none => b

/-- JavaScript `a || b` on a possibly-absent string field
(`undefined` and `""` both fall through to `b`). -/
def strOr (a : Option String) (b : String) : String :=
  match a with
  | some s => if s = "" then b else s
  | none => b

/-- One parsed spreadsheet row, restricted to the fields the conversion
handler reads (`files.js` lines 156–166).  A `none` field is an absent
column (`undefined` in JavaScript). -/
structure Row where
  conversationId : Option JsVal := none
  conversation_id : Option JsVal := none
  conversation : Option String := none
  Agent : Option String := none
  agent : Option String := none
  timestamp : Option String := none
  source_intent : Option String := none
  sourceIntent : Option String := none
deriving DecidableEq, Repr

/-! ### The translation helper (`translateText`, files.js lines 12–38) -/

/-- Model of `translateText`: with no API key the original text is returned
unchanged; with a key, a failing HTTP call (`none`) falls back to the
original text, and a successful call returns the translated text. -/
def translateText (apiKey : Option String) (call : String → Option String)
    (text : String) : String :=
  match apiKey with
  | none => text
  | some _ =>
    match call text with
    | none => text
    | some t => t

/-! ### The row loop of `POST /conversion` (files.js lines 152–192) -/

/-- The `item` object serialized for one emitted row, with the key order of
the object literal in the handler. -/
structure Item where
  conversationId : JsVal
  conversation : String
  Agent : String
  timestamp : String
  source_intent : String
deriving DecidableEq, Repr

/-- One iteration of the row loop: skip the row when both id fields are
falsy, otherwise resolve each field exactly as the handler's `||` chains do
and translate a nonempty conversation with `tr`.  `now` is the value
`new Date().toISOString()` would produce, `i` the 0-based row index. -/
def processRow (tr : String → String) (now : String) (i : Nat) (row : Row) :
    Option Item :=
  if !(jsTruthy row.conversationId) && !(jsTruthy row.conversation_id) then
    none
  else
    let conversationId :=
      jsOr row.conversationId (jsOr row.conversation_id (.num (Int.ofNat i + 1)))
    let conversation0 := strOr row.conversation ""
    let conversation := if conversation0 ≠ "" then tr conversation0 else conversation0
    some
      { conversationId := conversationId
        conversation := conversation
        Agent := strOr row.Agent (strOr row.agent "")
        timestamp := strOr row.timestamp now
        source_intent := strOr row.source_intent (strOr row.sourceIntent "") }

/-- The row loop starting at row index `i`: skipped rows emit nothing. -/
def convertRowsFrom (tr : String → String) (now : String) :
    Nat → List Row → List Item
  | _, [] => []
  | i, r :: rs =>
    match processRow tr now i r with
    | none => convertRowsFrom tr now (i + 1) rs
    | some it => it :: convertRowsFrom tr now (i + 1) rs

/-- All items emitted for a sheet (the loop starts at index 0). -/
def convertRows (tr : String → String) (now : String) (rows : List Row) :
    List Item :=
  convertRowsFrom tr now 0 rows

/-! ### JSON.stringify of the emitted envelope -/

/-- Lowercase hexadecimal digit. -/
def hexDigit (n : Nat) : Char :=
  if n < 10 then Char.ofNat (48 + n) else Char.ofNat (87 + n)

/-- Four-digit lowercase hexadecimal rendering, as in `\u00XX` escapes. -/
def hex4 (n : Nat) : String :=
  String.mk [hexDigit (n / 4096 % 16), hexDigit (n / 256 % 16),
             hexDigit (n / 16 % 16), hexDigit (n % 16)]

/-- `JSON.stringify` escaping of one string character. -/
def jsonEscapeChar (c : Char) : String :=
  if c = '\"' then "\\\""
  else if c = '\\' then "\\\\"
  else if c = '\n' then "\\n"
  else if c = '\r' then "\\r"
  else if c = '\t' then "\\t"
  else if c = '\x08' then "\\b"
  else if c = '\x0c' then "\\f"
  else if c.toNat < 32 then "\\u" ++ hex4 c.toNat
  else String.singleton c

/-- `JSON.stringify` escaping of a string body. -/
def jsonEscape (s : String) : String :=
  String.join (s.data.map jsonEscapeChar)

/-- A JSON string literal. -/
def jsonQuote (s : String) : String :=
  "\"" ++ jsonEscape s ++ "\""

/-- `JSON.stringify` of a cell value. -/
def JsVal.stringify : JsVal → String
  | .str s => jsonQuote s
  | .num n => toString n

/-- `JSON.stringify(item)` for one emitted row: compact form, key order as
in the handler's object literal. -/
def stringifyItem (it : Item) : String :=
  "\x7b\"item\":\x7b\"conversationId\":" ++ it.conversationId.stringify ++
  ",\"conversation\":" ++ jsonQuote it.conversation ++
  ",\"Agent\":" ++ jsonQuote it.Agent ++
  ",\"timestamp\":" ++ jsonQuote it.timestamp ++
  ",\"source_intent\":" ++ jsonQuote it.source_intent ++ "\x7d\x7d"

/-- The JSONL lines written for a sheet, in order. -/
def jsonlLines (tr : String → String) (now : String) (rows : List Row) :
    List String :=
  (convertRows tr now rows).map stringifyItem

/-- The bytes of the generated JSONL file: each record is one line followed
by a newline, exactly as `jsonlStream.write(JSON.stringify(item) + '\n')`
produces. -/
def convertBody (tr : String → String) (now : String) (rows : List Row) :
    String :=
  String.join ((jsonlLines tr now rows).map (fun l => l ++ "\n"))

/-! ### The full `POST /conversion` handler with its temp-file lifecycle
(files.js lines 97–222)

The filesystem is modelled by two booleans per temp file (created / still
present), and the fallible filesystem operations by success flags in the
environment: `unlinkExcelOk` (resp. `unlinkJsonlOk`) tells whether
`fs.unlink` on the saved spreadsheet (resp. the generated JSONL) succeeds.
Workbook parsing is modelled by `parseOk` plus the parsed `rows`, since the
XLSX library itself is an external dependency. -/

/-- JavaScript's `fileName.endsWith(suffix)`: a character-level suffix
test (modelled over the character lists so that it evaluates in the
kernel). -/
def strEndsWith (s post : String) : Bool :=
  post.data.isSuffixOf s.data

/-- The request as the handler sees it after upload middleware ran. -/
structure ConvRequest where
  hasFile : Bool
  fileName : String
  parseOk : Bool
  rows : List Row
deriving Repr

/-- Ambient effects of one request: translation credentials and transport,
the clock, and whether each temp-file unlink succeeds. -/
structure ConvEnv where
  apiKey : Option String
  call : String → Option String
  now : String
  unlinkExcelOk : Bool
  unlinkJsonlOk : Bool

/-- The HTTP outcome of the handler. -/
inductive ConvResp where
  | badRequest (msg : String)
  | sent (body : String)
  | serverError
deriving DecidableEq, Repr

/-- Final observation of one request: the response plus which temp files
were ever created and which still exist when the request completes. -/
structure ConvResult where
  resp : ConvResp
  excelCreated : Bool
  jsonlCreated : Bool
  excelLeft : Bool
  jsonlLeft : Bool
deriving DecidableEq, Repr

/-- The `POST /conversion` handler.  Control flow follows files.js:
missing-file and extension checks answer 400 before any file is written;
the spreadsheet is saved, parsed, converted and the JSONL read back; the
two temp files are unlinked and the body sent.  A parse failure — or a
failed unlink — lands in the inner `catch`, which deletes only the Excel
file (swallowing a second failure) and rethrows, so the outer handler
answers with a server error. -/
def runConversion (env : ConvEnv) (req : ConvRequest) : ConvResult :=
  if !req.hasFile then
    { resp := .badRequest "No file uploaded or file field missing in the request"
      excelCreated := false, jsonlCreated := false
      excelLeft := false, jsonlLeft := false }
  else if !(strEndsWith req.fileName ".xlsx") then
    { resp := .badRequest "Only .xlsx files are supported"
      excelCreated := false, jsonlCreated := false
      excelLeft := false, jsonlLeft := false }
  else if !req.parseOk then
    -- XLSX.readFile threw: the inner catch removes the Excel file (best
    -- effort); the JSONL stream was never opened.
    { resp := .serverError
      excelCreated := true, jsonlCreated := false
      excelLeft := !env.unlinkExcelOk, jsonlLeft := false }
  else
    let body := convertBody (translateText env.apiKey env.call) env.now req.rows
    if env.unlinkExcelOk then
      if env.unlinkJsonlOk then
        { resp := .sent body
          excelCreated := true, jsonlCreated := true
          excelLeft := false, jsonlLeft := false }
      else
        -- unlink of the JSONL rejected: inner catch finds the Excel file
        -- already gone and rethrows; the JSONL file stays behind.
        { resp := .serverError
          excelCreated := true, jsonlCreated := true
          excelLeft := false, jsonlLeft := true }
    else
      -- unlink of the Excel file rejected: inner catch retries the same
      -- unlink (fails again, swallowed) and rethrows; the JSONL file is
      -- never deleted on this path.
      { resp := .serverError
        excelCreated := true, jsonlCreated := true
        excelLeft := true, jsonlLeft := true }

/-! ### `getConversationTranscripts` (pagination heuristic) -/

/-- A message as returned by the external transcripts API. -/
structure RawMsg where
  role : Option String := none
  text : Option String := none
  timestamp : Option String := none
deriving DecidableEq, Repr

/-- A conversation object as returned by the external transcripts API. -/
structure RawConv where
  conversationId : Option String := none
  messages : List RawMsg := []
  createdAt : Option String := none
  model : Option String := none
deriving DecidableEq, Repr

/-- A transformed message (the client's `Message` interface). -/
structure Message where
  role : String
  content : String
  timestamp : Option String
deriving DecidableEq, Repr

/-- A transformed conversation (the client's `Conversation` interface,
metadata restricted to the fields the transform copies). -/
structure Conversation where
  id : String
  messages : List Message
  created_at : Option String
  model : Option String
deriving DecidableEq, Repr

/-- The client's `ConversationListResponse`. -/
structure ConversationListResponse where
  data : List Conversation
  has_more : Bool
  last_id : Option String
deriving DecidableEq, Repr

/-- The per-conversation transform in `getConversationTranscripts`:
lowercase the role, read `text` as `content`, default missing fields. -/
def transformConv (c : RawConv) : Conversation :=
  { id := (c.conversationId).getD ""
    messages := c.messages.map (fun m =>
      { role := ((m.role).getD "").toLower
        content := (m.text).getD ""
        timestamp := m.timestamp })
    created_at := c.createdAt
    model := c.model }

/-- The response-shaping tail of `getConversationTranscripts` after a
successful HTTP call: transform every received conversation, take the last
id as the cursor, and set `has_more` by the size heuristic
`transformedData.length >= limit`. -/
def getConversationTranscriptsCore (rawData : List RawConv) (limit : Nat) :
    ConversationListResponse :=
  let transformedData := rawData.map transformConv
  let lastId := (transformedData.getLast?).map (fun c => c.id)
  { data := transformedData
    has_more := decide (transformedData.length ≥ limit)
    last_id := lastId }

/-! ### `parseConversation` (AnnotationReviewPage.tsx lines 84–146)

The two regular expressions of the source are embedded as dedicated
matchers.  Both only use stars over single-character classes (`\s*`,
`[^']*`, `[^}]*`), so every star is a deterministic maximal munch except
`[^}]*` before `'role'`, whose backtracking is modelled by trying every
split point (`matchPairStarts`).  `test` is unanchored, so every start
position is tried. -/

/-- The character class `\s` of JavaScript regular expressions. -/
def jsWhitespace (c : Char) : Bool :=
  c = ' ' || c = '\t' || c = '\n' || c = '\r' || c = '\x0b' || c = '\x0c' ||
  c.toNat = 0xa0 || c.toNat = 0x1680 ||
  (0x2000 ≤ c.toNat && c.toNat ≤ 0x200a) ||
  c.toNat = 0x2028 || c.toNat = 0x2029 || c.toNat = 0x202f ||
  c.toNat = 0x205f || c.toNat = 0x3000 || c.toNat = 0xfeff

/-- Consume the maximal `\s*` prefix. -/
def dropSpacesL (l : List Char) : List Char :=
  match l with
  | [] => []
  | c :: t => if jsWhitespace c then dropSpacesL t else l

/-- Consume one expected literal character. -/
def expectChar (c : Char) (l : List Char) : Option (List Char) :=
  match l with
  | [] => none
  | d :: t => if d = c then some t else none

/-- Consume an expected literal character sequence. -/
def expectLit (lit : List Char) (l : List Char) : Option (List Char) :=
  match lit with
  | [] => some l
  | c :: cs =>
    match expectChar c l with
    | none => none
    | some t => expectLit cs t

/-- Consume `[^q]*` followed by the closing `q`; returns the consumed
capture and the rest.  Greedy munch with no choice: the class cannot
contain `q`, so the capture necessarily ends at the first `q`. -/
def scanToChar (q : Char) (l : List Char) : Option (List Char × List Char) :=
  match l with
  | [] => none
  | c :: t =>
    if c = q then some ([], t)
    else
      match scanToChar q t with
      | none => none
      | some (cap, rest) => some (c :: cap, rest)

/-- The characters of the regex literal `'role'` (quotes included). -/
def roleLit : List Char := ['\x27', 'r', 'o', 'l', 'e', '\x27']

/-- The characters of the regex literal `'content'` (quotes included). -/
def contentLit : List Char :=
  ['\x27', 'c', 'o', 'n', 't', 'e', 'n', 't', '\x27']

/-- Deterministic tail of one `{...}` group of the test regex, starting at
the `'role'` literal:
`'role'\s*:\s*'[^']*'\s*,\s*'content'\s*:\s*'[^']*'\s*\}`. -/
def pairTailAt (l : List Char) : Option (List Char) := do
  let l ← expectLit roleLit l
  let l ← expectChar ':' (dropSpacesL l)
  let l ← expectChar '\x27' (dropSpacesL l)
  let p ← scanToChar '\x27' l
  let l ← expectChar ',' (dropSpacesL p.2)
  let l ← expectLit contentLit (dropSpacesL l)
  let l ← expectChar ':' (dropSpacesL l)
  let l ← expectChar '\x27' (dropSpacesL l)
  let q ← scanToChar '\x27' l
  expectChar '\x7d' (dropSpacesL q.2)

/-- All remainders of a `\{[^}]*'role'…\}` group match whose `\{` was just
consumed: `[^}]*` may stop at any point before the first `\x7d`, after
which the deterministic `pairTailAt` must succeed. -/
def matchPairStarts : List Char → List (List Char)
  | [] => []
  | l@(c :: t) =>
    (match pairTailAt l with
     | some r => [r]
     | none => []) ++
    (if c = '\x7d' then [] else matchPairStarts t)

/-- Does `\s*\]` match here? -/
def closeAt (l : List Char) : Bool :=
  match expectChar ']' (dropSpacesL l) with
  | some _ => true
  | none => false

/-- Consume the group separator `\s*,\s*\{`. -/
def sepBrace (l : List Char) : Option (List Char) := do
  let l ← expectChar ',' (dropSpacesL l)
  expectChar '\x7b' (dropSpacesL l)

theorem dropSpacesL_length_le (l : List Char) :
    (dropSpacesL l).length ≤ l.length := by
  induction l with
  | nil => simp [dropSpacesL]
  | cons c t ih =>
    simp only [dropSpacesL]
    split
    · exact Nat.le_succ_of_le ih
    · exact Nat.le_refl _

theorem expectChar_length {c : Char} {l t : List Char}
    (h : expectChar c l = some t) : t.length + 1 = l.length := by
  cases l with
  | nil => simp [expectChar] at h
  | cons d u =>
    simp only [expectChar] at h
    split at h
    · cases h; simp
    · cases h

theorem expectLit_length_le {lit l t : List Char}
    (h : expectLit lit l = some t) : t.length ≤ l.length := by
  induction lit generalizing l with
  | nil => simp [expectLit] at h; simp [h]
  | cons c cs ih =>
    simp only [expectLit] at h
    cases he : expectChar c l with
    | none => rw [he] at h; cases h
    | some u =>
      rw [he] at h
      have := expectChar_length he
      have := ih h
      omega

theorem scanToChar_length {q : Char} {l : List Char} {p : List Char × List Char}
    (h : scanToChar q l = some p) : p.2.length < l.length := by
  induction l generalizing p with
  | nil => simp [scanToChar] at h
  | cons c t ih =>
    simp only [scanToChar] at h
    split at h
    · cases h; simp
    · cases hs : scanToChar q t with
      | none => rw [hs] at h; cases h
      | some p2 =>
        rw [hs] at h
        obtain ⟨cap, rest⟩ := p2
        cases h
        exact Nat.lt_succ_of_lt (ih (p := (cap, rest)) hs)

theorem pairTailAt_length {l r : List Char}
    (h : pairTailAt l = some r) : r.length < l.length := by
  simp only [pairTailAt, bind, Option.bind_eq_some] at h
  obtain ⟨a1, h1, a2, h2, a3, h3, a4, h4, a5, h5, a6, h6, a7, h7, a8, h8,
    a9, h9, h10⟩ := h
  have e1 := expectLit_length_le h1
  have e2 := expectChar_length h2
  have d1 := dropSpacesL_length_le a1
  have e3 := expectChar_length h3
  have d2 := dropSpacesL_length_le a2
  have e4 := scanToChar_length h4
  have d3 := dropSpacesL_length_le a4.2
  have e5 := expectChar_length h5
  have d4 := dropSpacesL_length_le a5
  have e6 := expectLit_length_le h6
  have d5 := dropSpacesL_length_le a6
  have e7 := expectChar_length h7
  have d6 := dropSpacesL_length_le a7
  have e8 := expectChar_length h8
  have e9 := scanToChar_length h9
  have d7 := dropSpacesL_length_le a9.2
  have e10 := expectChar_length h10
  omega

theorem matchPairStarts_length {l r : List Char}
    (h : r ∈ matchPairStarts l) : r.length < l.length := by
  induction l with
  | nil => simp [matchPairStarts] at h
  | cons c t ih =>
    simp only [matchPairStarts, List.mem_append] at h
    rcases h with h | h
    · cases hp : pairTailAt (c :: t) with
      | none => rw [hp] at h; simp at h
      | some r2 =>
        rw [hp] at h
        simp at h
        subst h
        exact pairTailAt_length hp
    · split at h
      · simp at h
      · have := ih h
        simp
        omega

theorem sepBrace_length {l t : List Char}
    (h : sepBrace l = some t) : t.length < l.length := by
  simp only [sepBrace, bind, Option.bind_eq_some] at h
  obtain ⟨a, ha, hb⟩ := h
  have d1 := dropSpacesL_length_le l
  have e1 := expectChar_length ha
  have d2 := dropSpacesL_length_le a
  have e2 := expectChar_length hb
  omega

/-- After one `{...}` group of the test regex: does
`(?:\s*,\s*\{[^}]*'role'…\})*\s*\]` match here (for some number of
iterations)? -/
def matchStarTail (l : List Char) : Bool :=
  closeAt l ||
  (match hs : sepBrace l with
   | none => false
   | some t =>
     (matchPairStarts t).attach.any (fun r => matchStarTail r.1))
termination_by l.length
decreasing_by
  have h1 := sepBrace_length hs
  have h2 := matchPairStarts_length r.2
  omega

/-- One attempted match of the whole test regex at a fixed start position:
`\[\s*\{` then one group, then the starred groups and `\s*\]`. -/
def fullMatchAt (l : List Char) : Bool :=
  match expectChar '[' l with
  | none => false
  | some t =>
    match expectChar '\x7b' (dropSpacesL t) with
    | none => false
    | some u => (matchPairStarts u).any matchStarTail

/-- `singleQuoteRegex.test(conversationStr)`: the regex is unanchored, so a
match may start at any position. -/
def singleQuoteTestL : List Char → Bool
  | [] => false
  | l@(_ :: t) => fullMatchAt l || singleQuoteTestL t

/-- One attempted match of the extract regex
`'role'\s*:\s*'([^']*)'\s*,\s*'content'\s*:\s*'([^']*)'` at a fixed
position: returns the two captures and the rest.  Fully deterministic. -/
def matchExtractAt (l : List Char) : Option (List Char × List Char × List Char) := do
  let l ← expectLit roleLit l
  let l ← expectChar ':' (dropSpacesL l)
  let l ← expectChar '\x27' (dropSpacesL l)
  let p ← scanToChar '\x27' l
  let l ← expectChar ',' (dropSpacesL p.2)
  let l ← expectLit contentLit (dropSpacesL l)
  let l ← expectChar ':' (dropSpacesL l)
  let l ← expectChar '\x27' (dropSpacesL l)
  let q ← scanToChar '\x27' l
  pure (p.1, q.1, q.2)

theorem matchExtractAt_length {l : List Char}
    {m : List Char × List Char × List Char}
    (h : matchExtractAt l = some m) : m.2.2.length < l.length := by
  simp only [matchExtractAt, bind, Option.bind_eq_some, pure,
    Option.some.injEq] at h
  obtain ⟨a1, h1, a2, h2, a3, h3, a4, h4, a5, h5, a6, h6, a7, h7, a8, h8,
    a9, h9, h10⟩ := h
  have e1 := expectLit_length_le h1
  have e2 := expectChar_length h2
  have d1 := dropSpacesL_length_le a1
  have e3 := expectChar_length h3
  have d2 := dropSpacesL_length_le a2
  have e4 := scanToChar_length h4
  have d3 := dropSpacesL_length_le a4.2
  have e5 := expectChar_length h5
  have d4 := dropSpacesL_length_le a5
  have e6 := expectLit_length_le h6
  have d5 := dropSpacesL_length_le a6
  have e7 := expectChar_length h7
  have d6 := dropSpacesL_length_le a7
  have e8 := expectChar_length h8
  have e9 := scanToChar_length h9
  subst h10
  show a9.2.length < l.length
  omega

/-- `conversationStr.matchAll(extractRegex)`: scan left to right, resuming
after each match, advancing one character on failure. -/
def extractPairsAux : List Char → List (List Char × List Char)
  | [] => []
  | c :: t =>
    match he : matchExtractAt (c :: t) with
    | some m => (m.1, m.2.1) :: extractPairsAux m.2.2
    | none => extractPairsAux t
termination_by l => l.length
decreasing_by
  · exact matchExtractAt_length he
  · simp

/-- `match[2].replace(/\\'/g, "'")` on a capture. -/
def replaceBackslashQuote : List Char → List Char
  | [] => []
  | [c] => [c]
  | c :: d :: t =>
    if c = '\\' && d = '\x27' then '\x27' :: replaceBackslashQuote t
    else c :: replaceBackslashQuote (d :: t)

/-! ### A strict JSON parser (the platform's `JSON.parse`)

`JSON.parse` is a host builtin, so it is modelled here: a recursive-descent
parser for the full JSON grammar.  Escape handling in strings is strict —
in particular `\x27` after a backslash is *not* a legal JSON escape and
fails the parse, exactly as `JSON.parse` throws on it.  Numbers keep their
source token (`jnum`); the claims never display a number, so JavaScript
number-to-string formatting is not re-implemented.  Surrogate pairing of
`\uXXXX` escapes is likewise not modelled (no claim exercises it). -/

/-- A JavaScript value produced by `JSON.parse`. -/
inductive JVal where
  | jnull
  | jbool (b : Bool)
  | jnum (raw : String)
  | jstr (s : String)
  | jarr (xs : List JVal)
  | jobj (fields : List (String × JVal))
deriving Repr

/-- JSON structural whitespace (space, tab, line feed, carriage return). -/
def jsonWsChar (c : Char) : Bool :=
  c = ' ' || c = '\t' || c = '\n' || c = '\r'

/-- Skip JSON structural whitespace. -/
def skipJsonWs (l : List Char) : List Char :=
  match l with
  | [] => []
  | c :: t => if jsonWsChar c then skipJsonWs t else l

/-- Hexadecimal digit value. -/
def hexVal (c : Char) : Option Nat :=
  if '0' ≤ c ∧ c ≤ '9' then some (c.toNat - 48)
  else if 'a' ≤ c ∧ c ≤ 'f' then some (c.toNat - 87)
  else if 'A' ≤ c ∧ c ≤ 'F' then some (c.toNat - 55)
  else none

/-- Parse a JSON string body after the opening quote; returns the decoded
characters and the rest after the closing quote.  Only the eight legal
escapes and `\uXXXX` are accepted; unescaped control characters are
rejected. -/
def parseJsonStringBody : Nat → List Char → Option (List Char × List Char)
  | 0, _ => none
  | _, [] => none
  | fuel + 1, c :: t =>
    if c = '"' then some ([], t)
    else if c = '\\' then
      match t with
      | [] => none
      | e :: t2 =>
        let esc : Option (Char × List Char) :=
          if e = '"' then some ('"', t2)
          else if e = '\\' then some ('\\', t2)
          else if e = '/' then some ('/', t2)
          else if e = 'b' then some ('\x08', t2)
          else if e = 'f' then some ('\x0c', t2)
          else if e = 'n' then some ('\n', t2)
          else if e = 'r' then some ('\r', t2)
          else if e = 't' then some ('\t', t2)
          else if e = 'u' then
            match t2 with
            | h1 :: h2 :: h3 :: h4 :: t3 =>
              match hexVal h1, hexVal h2, hexVal h3, hexVal h4 with
              | some v1, some v2, some v3, some v4 =>
                some (Char.ofNat (v1 * 4096 + v2 * 256 + v3 * 16 + v4), t3)
              | _, _, _, _ => none
            | _ => none
          else none
        match esc with
        | none => none
        | some (d, rest) =>
          match parseJsonStringBody fuel rest with
          | none => none
          | some (body, rest2) => some (d :: body, rest2)
    else if c.toNat < 32 then none
    else
      match parseJsonStringBody fuel t with
      | none => none
      | some (body, rest2) => some (c :: body, rest2)

/-- Parse a JSON number token (kept raw), validating the JSON grammar:
`-? (0 | [1-9][0-9]*) (\.[0-9]+)? ([eE][+-]?[0-9]+)?`. -/
def parseJsonNumber (l : List Char) : Option (JVal × List Char) :=
  let (sign, l1) :=
    match l with
    | '-' :: t => (['-'], t)
    | _ => (([] : List Char), l)
  let ip := l1.span Char.isDigit
  match hip : ip.1 with
  | [] => none
  | d0 :: ds =>
    if d0 = '0' ∧ ds ≠ [] then none
    else
      let afterFrac :
          Option (List Char × List Char) :=
        match ip.2 with
        | '.' :: t2 =>
          let fp := t2.span Char.isDigit
          if fp.1 = [] then none else some ('.' :: fp.1, fp.2)
        | _ => some ([], ip.2)
      match afterFrac with
      | none => none
      | some (fracTok, l2) =>
        let afterExp :
            Option (List Char × List Char) :=
          match l2 with
          | e :: t3 =>
            if e = 'e' ∨ e = 'E' then
              let (sgn, t4) :=
                match t3 with
                | '+' :: u => (['+'], u)
                | '-' :: u => (['-'], u)
                | _ => (([] : List Char), t3)
              let ep := t4.span Char.isDigit
              if ep.1 = [] then none else some (e :: (sgn ++ ep.1), ep.2)
            else some ([], l2)
          | [] => some ([], l2)
        match afterExp with
        | none => none
        | some (expTok, l3) =>
          some (.jnum (String.mk (sign ++ ip.1 ++ fracTok ++ expTok)), l3)

mutual

/-- Parse one JSON value (leading whitespace allowed). -/
def parseJsonValue : Nat → List Char → Option (JVal × List Char)
  | 0, _ => none
  | fuel + 1, l =>
    match skipJsonWs l with
    | [] => none
    | c :: t =>
      if c = '"' then
        match parseJsonStringBody (fuel + 1) t with
        | none => none
        | some (body, rest) => some (.jstr (String.mk body), rest)
      else if c = '[' then
        match skipJsonWs t with
        | ']' :: u => some (.jarr [], u)
        | u => parseJsonArrayItems fuel u []
      else if c = '\x7b' then
        match skipJsonWs t with
        | '\x7d' :: u => some (.jobj [], u)
        | u => parseJsonObjectItems fuel u []
      else if c = 't' then
        match expectLit ("rue".data) t with
        | none => none
        | some rest => some (.jbool true, rest)
      else if c = 'f' then
        match expectLit ("alse".data) t with
        | none => none
        | some rest => some (.jbool false, rest)
      else if c = 'n' then
        match expectLit ("ull".data) t with
        | none => none
        | some rest => some (.jnull, rest)
      else parseJsonNumber (c :: t)

/-- Parse the elements of a JSON array (after `[`, at least one element),
accumulating parsed elements. -/
def parseJsonArrayItems : Nat → List Char → List JVal →
    Option (JVal × List Char)
  | 0, _, _ => none
  | fuel + 1, l, acc =>
    match parseJsonValue fuel l with
    | none => none
    | some (v, rest) =>
      match skipJsonWs rest with
      | ',' :: u => parseJsonArrayItems fuel u (acc ++ [v])
      | ']' :: u => some (.jarr (acc ++ [v]), u)
      | _ => none

/-- Parse the members of a JSON object (after `\x7b`, at least one member),
accumulating parsed members.  A later duplicate key simply appends; lookup
(`lookupJsField`) takes the last occurrence, as JavaScript does. -/
def parseJsonObjectItems : Nat → List Char → List (String × JVal) →
    Option (JVal × List Char)
  | 0, _, _ => none
  | fuel + 1, l, acc =>
    match skipJsonWs l with
    | '"' :: t =>
      match parseJsonStringBody (fuel + 1) t with
      | none => none
      | some (key, rest) =>
        match skipJsonWs rest with
        | ':' :: u =>
          match parseJsonValue fuel u with
          | none => none
          | some (v, rest2) =>
            match skipJsonWs rest2 with
            | ',' :: u2 =>
              parseJsonObjectItems fuel u2 (acc ++ [(String.mk key, v)])
            | '\x7d' :: u2 =>
              some (.jobj (acc ++ [(String.mk key, v)]), u2)
            | _ => none
        | _ => none
    | _ => none

end

/-- `JSON.parse` on a character list: parse one value and require only
whitespace to remain. -/
def jsonParseL (l : List Char) : Option JVal :=
  match parseJsonValue (2 * l.length + 4) l with
  | none => none
  | some (v, rest) =>
    if skipJsonWs rest = [] then some v else none

/-! ### The quote-repair chain of `parseConversation` -/

/-- `.replace(/\[\s*\{/g, "[\x7b")`. -/
def replaceOpenBracket : Nat → List Char → List Char
  | 0, l => l
  | _ + 1, [] => []
  | fuel + 1, c :: t =>
    if c = '[' then
      match expectChar '\x7b' (dropSpacesL t) with
      | some u => '[' :: '\x7b' :: replaceOpenBracket fuel u
      | none => c :: replaceOpenBracket fuel t
    else c :: replaceOpenBracket fuel t

/-- `.replace(/\}\s*\]/g, "\x7d]")`. -/
def replaceCloseBracket : Nat → List Char → List Char
  | 0, l => l
  | _ + 1, [] => []
  | fuel + 1, c :: t =>
    if c = '\x7d' then
      match expectChar ']' (dropSpacesL t) with
      | some u => '\x7d' :: ']' :: replaceCloseBracket fuel u
      | none => c :: replaceCloseBracket fuel t
    else c :: replaceCloseBracket fuel t

/-- `.replace(/\}\s*,\s*\{/g, "\x7d,\x7b")`. -/
def replaceBraceComma : Nat → List Char → List Char
  | 0, l => l
  | _ + 1, [] => []
  | fuel + 1, c :: t =>
    if c = '\x7d' then
      match sepBrace t with
      | some u => '\x7d' :: ',' :: '\x7b' :: replaceBraceComma fuel u
      | none => c :: replaceBraceComma fuel t
    else c :: replaceBraceComma fuel t

/-- The capture-level `p2.replace(/"/g, "\\\"")` of the repair callback. -/
def escDoubleQuotes (l : List Char) : List Char :=
  l.flatMap (fun c => if c = '"' then ['\\', '"'] else [c])

/-- One attempted match of `"([^"]+)":\s*"([^"]*)"` at a fixed position. -/
def matchKeyValAt (l : List Char) : Option (List Char × List Char × List Char) := do
  let l ← expectChar '"' l
  let p ← scanToChar '"' l
  if p.1 = [] then none else
  let l ← expectChar ':' p.2
  let l ← expectChar '"' (dropSpacesL l)
  let q ← scanToChar '"' l
  pure (p.1, q.1, q.2)

/-- `.replace(/"([^"]+)":\s*"([^"]*)"/g, (m, p1, p2) => ...)`: each match is
rewritten to `"p1": "p2"` (with the callback's quote-escaping of `p2`,
which is vacuous since `p2` cannot contain a quote). -/
def replaceKeyVal : Nat → List Char → List Char
  | 0, l => l
  | _ + 1, [] => []
  | fuel + 1, c :: t =>
    if c = '"' then
      match matchKeyValAt (c :: t) with
      | some m =>
        ('"' :: m.1 ++ '"' :: ':' :: ' ' :: '"' :: escDoubleQuotes m.2.1 ++ ['"'])
          ++ replaceKeyVal fuel m.2.2
      | none => c :: replaceKeyVal fuel t
    else c :: replaceKeyVal fuel t

/-- The whole repair chain applied to the conversation string when both
`JSON.parse` attempts are needed. -/
def fixupQuotes (s : String) : String :=
  let l1 := replaceOpenBracket s.data.length s.data
  let l2 := replaceCloseBracket l1.length l1
  let l3 := replaceBraceComma l2.length l2
  let l4 := l3.map (fun c => if c = '\x27' then '"' else c)
  let l5 := replaceKeyVal l4.length l4
  String.mk l5

/-! ### Rendering (`**role**: content` lines) -/

/-- Property lookup on a parsed value: `undefined` (`none`) off objects; a
duplicate key resolves to its last occurrence. -/
def lookupJsField (v : JVal) (k : String) : Option JVal :=
  match v with
  | .jobj fs => ((fs.filter (fun f => f.1 = k)).getLast?).map (fun f => f.2)
  | _ => none

mutual

/-- JavaScript string coercion of a value inside a template literal. -/
def jvalDisplay : JVal → String
  | .jnull => "null"
  | .jbool b => if b then "true" else "false"
  | .jnum raw => raw
  | .jstr s => s
  | .jarr xs => String.intercalate "," (jvalDisplayList xs)
  | .jobj _ => "[object Object]"

/-- The element-wise coercion of an array's members. -/
def jvalDisplayList : List JVal → List String
  | [] => []
  | x :: xs => jvalDisplay x :: jvalDisplayList xs

end

/-- `${turn.k}` for a field access on a turn. -/
def fieldDisplay (t : JVal) (k : String) : String :=
  match lookupJsField t k with
  | none => "undefined"
  | some v => jvalDisplay v

/-- `conversationData.map(turn => `**${turn.role}**: ${turn.content}`)
.join('\n\n')`. -/
def renderTurns (xs : List JVal) : String :=
  String.intercalate "\n\n"
    (xs.map (fun t =>
      "**" ++ fieldDisplay t "role" ++ "**: " ++ fieldDisplay t "content"))

/-! ### `parseConversation` itself -/

/-- `conversationStr.startsWith('[') && conversationStr.endsWith(']')`. -/
def looksBracketed (s : String) : Bool :=
  (s.data.head? == some '[') && (s.data.getLast? == some ']')

/-- `parseConversation` (AnnotationReviewPage.tsx lines 84–146).  Inside
the bracket check: the single-quote regex path builds turn objects from the
extracted captures (with the escaped-quote replace on each content), the
JSON path tries `JSON.parse` on the string and then on its quote-repaired
form; an array result is rendered, anything else falls back to the input
string.  All throw-sites of the source are `Option` failures here, so the
function is total. -/
def parseConversation (s : String) : String :=
  if looksBracketed s then
    let conversationData : Option JVal :=
      if singleQuoteTestL s.data then
        let ms := extractPairsAux s.data
        if ms.length > 0 then
          some (.jarr (ms.map (fun p =>
            .jobj [("role", .jstr (String.mk p.1)),
                   ("content", .jstr (String.mk (replaceBackslashQuote p.2)))])))
        else none
      else
        match jsonParseL s.data with
        | some v => some v
        | none => jsonParseL (fixupQuotes s).data
    match conversationData with
    | some (.jarr xs) => renderTurns xs
    | _ => s
  else s

/-! ### The canonical single-quoted list-of-dicts shape

`mkConv` builds the input family the spec's single-quote claim quantifies
over: `[{'role': r1, 'content': c1}, {'role': r2, 'content': c2}, ...]`. -/

/-- The text of one dict after its opening brace:
`'role': 'r', 'content': 'c'` followed by the closing brace. -/
def pairTextL (p : String × String) : List Char :=
  roleLit ++ ':' :: ' ' :: '\x27' ::
    (p.1.data ++ '\x27' :: ',' :: ' ' ::
      (contentLit ++ ':' :: ' ' :: '\x27' ::
        (p.2.data ++ '\x27' :: ['\x7d'])))

/-- What follows one complete dict: either the closing bracket, or
`, ` and the next dict. -/
def afterText : List (String × String) → List Char
  | [] => [']']
  | p :: ps => ',' :: ' ' :: '\x7b' :: (pairTextL p ++ afterText ps)

/-- The whole canonical conversation string for a nonempty list of
role/content pairs (the empty list degenerates to `[]`). -/
def mkConvL : List (String × String) → List Char
  | [] => ['[', ']']
  | p :: ps => '[' :: '\x7b' :: (pairTextL p ++ afterText ps)

/-- `mkConvL` as a string. -/
def mkConv (l : List (String × String)) : String :=
  String.mk (mkConvL l)

/-! ### Computation lemmas for the matchers on canonical inputs -/

theorem expectChar_cons (c : Char) (t : List Char) :
    expectChar c (c :: t) = some t := by
  simp [expectChar]

theorem expectLit_append (lit rest : List Char) :
    expectLit lit (lit ++ rest) = some rest := by
  induction lit with
  | nil => rfl
  | cons c t ih => simp [expectLit, expectChar, ih]

theorem dropSpacesL_cons_true {c : Char} (h : jsWhitespace c = true)
    (t : List Char) : dropSpacesL (c :: t) = dropSpacesL t := by
  simp [dropSpacesL, h]

theorem dropSpacesL_cons_false {c : Char} (h : jsWhitespace c = false)
    (t : List Char) : dropSpacesL (c :: t) = c :: t := by
  simp [dropSpacesL, h]

theorem scanToChar_append {q : Char} {a : List Char} (h : q ∉ a)
    (rest : List Char) : scanToChar q (a ++ q :: rest) = some (a, rest) := by
  induction a with
  | nil => simp [scanToChar]
  | cons c t ih =>
    have hcq : ¬ c = q := fun he => h (he ▸ List.mem_cons_self c t)
    have hq : q ∉ t := fun hm => h (List.mem_cons_of_mem c hm)
    simp only [List.cons_append, scanToChar, if_neg hcq, List.append_eq]
    rw [ih hq]

theorem dropSpacesL_contentLit (x : List Char) :
    dropSpacesL (contentLit ++ x) = contentLit ++ x := by
  have w : jsWhitespace '\x27' = false := by decide
  simp only [contentLit, List.cons_append, dropSpacesL_cons_false w]

theorem pairTailAt_canonical {p : String × String}
    (hr : '\x27' ∉ p.1.data) (hc : '\x27' ∉ p.2.data) (rest : List Char) :
    pairTailAt (pairTextL p ++ rest) = some rest := by
  have w1 : jsWhitespace ':' = false := by decide
  have w2 : jsWhitespace ' ' = true := by decide
  have w3 : jsWhitespace '\x27' = false := by decide
  have w4 : jsWhitespace ',' = false := by decide
  have w5 : jsWhitespace '\x7d' = false := by decide
  simp only [pairTailAt, pairTextL, List.append_assoc, List.cons_append,
    List.nil_append, expectLit_append, Option.bind_eq_bind,
    Option.some_bind, dropSpacesL_cons_true w2, dropSpacesL_cons_false w1,
    expectChar_cons, dropSpacesL_cons_false w3, dropSpacesL_cons_false w4,
    dropSpacesL_cons_false w5, dropSpacesL_contentLit, scanToChar_append hr,
    scanToChar_append hc]

theorem matchExtractAt_canonical {p : String × String}
    (hr : '\x27' ∉ p.1.data) (hc : '\x27' ∉ p.2.data) (rest : List Char) :
    matchExtractAt (pairTextL p ++ rest) =
      some (p.1.data, p.2.data, '\x7d' :: rest) := by
  have w1 : jsWhitespace ':' = false := by decide
  have w2 : jsWhitespace ' ' = true := by decide
  have w3 : jsWhitespace '\x27' = false := by decide
  have w4 : jsWhitespace ',' = false := by decide
  simp only [matchExtractAt, pairTextL, List.append_assoc, List.cons_append,
    List.nil_append, expectLit_append, Option.bind_eq_bind,
    Option.some_bind, dropSpacesL_cons_true w2, dropSpacesL_cons_false w1,
    expectChar_cons, dropSpacesL_cons_false w3, dropSpacesL_cons_false w4,
    dropSpacesL_contentLit, scanToChar_append hr, scanToChar_append hc]
  rfl

theorem closeAt_rbracket (rest : List Char) :
    closeAt (']' :: rest) = true := by
  have w : jsWhitespace ']' = false := by decide
  simp [closeAt, dropSpacesL_cons_false w, expectChar_cons]

theorem sepBrace_canonical (rest : List Char) :
    sepBrace (',' :: ' ' :: '\x7b' :: rest) = some rest := by
  have w1 : jsWhitespace ',' = false := by decide
  have w2 : jsWhitespace ' ' = true := by decide
  have w3 : jsWhitespace '\x7b' = false := by decide
  simp [sepBrace, dropSpacesL_cons_false w1, dropSpacesL_cons_true w2,
    dropSpacesL_cons_false w3, expectChar_cons]

theorem pairTextL_append_ne_nil (p : String × String) (x : List Char) :
    pairTextL p ++ x ≠ [] := by
  simp [pairTextL, roleLit]

theorem matchPairStarts_mem {l r : List Char} (hl : l ≠ [])
    (h : pairTailAt l = some r) : r ∈ matchPairStarts l := by
  cases l with
  | nil => exact absurd rfl hl
  | cons c t => simp [matchPairStarts, h]

theorem matchStarTail_of_closeAt {l : List Char} (h : closeAt l = true) :
    matchStarTail l = true := by
  rw [matchStarTail, h]
  rfl

theorem matchStarTail_step {l t r : List Char} (hsep : sepBrace l = some t)
    (hmem : r ∈ matchPairStarts t) (hrec : matchStarTail r = true) :
    matchStarTail l = true := by
  rw [matchStarTail]
  have hX :
      (match hs : sepBrace l with
       | none => false
       | some t =>
         (matchPairStarts t).attach.any (fun r => matchStarTail r.1)) = true := by
    split
    · rename_i hs
      rw [hs] at hsep
      cases hsep
    · rename_i t2 hs
      rw [hs] at hsep
      cases hsep
      simp only [List.any_eq_true]
      exact ⟨⟨r, hmem⟩, List.mem_attach _ _, hrec⟩
  rw [hX, Bool.or_true]

theorem matchStarTail_afterText {ps : List (String × String)}
    (h : ∀ p ∈ ps, '\x27' ∉ p.1.data ∧ '\x27' ∉ p.2.data) :
    matchStarTail (afterText ps) = true := by
  induction ps with
  | nil => exact matchStarTail_of_closeAt (closeAt_rbracket [])
  | cons p ps ih =>
    have hp := h p (List.mem_cons_self p ps)
    have hps : ∀ q ∈ ps, '\x27' ∉ q.1.data ∧ '\x27' ∉ q.2.data :=
      fun q hq => h q (List.mem_cons_of_mem p hq)
    refine matchStarTail_step (t := pairTextL p ++ afterText ps) ?_ ?_ (ih hps)
    · simp only [afterText]
      exact sepBrace_canonical _
    · exact matchPairStarts_mem (pairTextL_append_ne_nil p _)
        (pairTailAt_canonical hp.1 hp.2 _)

theorem fullMatchAt_mkConv {p : String × String} {ps : List (String × String)}
    (hp : '\x27' ∉ p.1.data ∧ '\x27' ∉ p.2.data)
    (hps : ∀ q ∈ ps, '\x27' ∉ q.1.data ∧ '\x27' ∉ q.2.data) :
    fullMatchAt (mkConvL (p :: ps)) = true := by
  have w : jsWhitespace '\x7b' = false := by decide
  simp only [mkConvL, fullMatchAt, expectChar_cons, dropSpacesL_cons_false w]
  simp only [List.any_eq_true]
  refine ⟨afterText ps, ?_, ?_⟩
  · exact matchPairStarts_mem (pairTextL_append_ne_nil p _)
      (pairTailAt_canonical hp.1 hp.2 _)
  · exact matchStarTail_afterText fun q hq =>
      hps q hq

theorem singleQuoteTestL_mkConv {p : String × String}
    {ps : List (String × String)}
    (hp : '\x27' ∉ p.1.data ∧ '\x27' ∉ p.2.data)
    (hps : ∀ q ∈ ps, '\x27' ∉ q.1.data ∧ '\x27' ∉ q.2.data) :
    singleQuoteTestL (mkConvL (p :: ps)) = true := by
  rw [show mkConvL (p :: ps) =
    '[' :: ('\x7b' :: (pairTextL p ++ afterText ps)) from rfl]
  rw [singleQuoteTestL]
  rw [show ('[' :: ('\x7b' :: (pairTextL p ++ afterText ps))) =
    mkConvL (p :: ps) from rfl]
  rw [fullMatchAt_mkConv hp hps, Bool.true_or]

theorem matchExtractAt_cons_none {c : Char} (h : c ≠ '\x27')
    (t : List Char) : matchExtractAt (c :: t) = none := by
  simp [matchExtractAt, roleLit, expectLit, expectChar, h]

theorem extractPairsAux_cons_none {c : Char} {t : List Char}
    (h : matchExtractAt (c :: t) = none) :
    extractPairsAux (c :: t) = extractPairsAux t := by
  rw [extractPairsAux]
  split
  · rename_i m hm
    rw [h] at hm
    cases hm
  · rfl

theorem extractPairsAux_cons_some {c : Char} {t : List Char}
    {m : List Char × List Char × List Char}
    (h : matchExtractAt (c :: t) = some m) :
    extractPairsAux (c :: t) = (m.1, m.2.1) :: extractPairsAux m.2.2 := by
  rw [extractPairsAux]
  split
  · rename_i m2 hm
    rw [h] at hm
    cases hm
    rfl
  · rename_i hm
    rw [h] at hm
    cases hm

theorem extractPairsAux_skip {j : List Char} (hj : ∀ c ∈ j, c ≠ '\x27')
    (rest : List Char) :
    extractPairsAux (j ++ rest) = extractPairsAux rest := by
  induction j with
  | nil => rfl
  | cons c t ih =>
    rw [List.cons_append,
      extractPairsAux_cons_none
        (matchExtractAt_cons_none (hj c (List.mem_cons_self c t)) _),
      ih (fun d hd => hj d (List.mem_cons_of_mem c hd))]

theorem extractPairsAux_eq_of_some {l : List Char}
    {m : List Char × List Char × List Char} (hl : l ≠ [])
    (h : matchExtractAt l = some m) :
    extractPairsAux l = (m.1, m.2.1) :: extractPairsAux m.2.2 := by
  cases l with
  | nil => exact absurd rfl hl
  | cons c t => exact extractPairsAux_cons_some h

theorem extractPairsAux_afterText {ps : List (String × String)}
    (h : ∀ p ∈ ps, '\x27' ∉ p.1.data ∧ '\x27' ∉ p.2.data) :
    extractPairsAux ('\x7d' :: afterText ps) =
      ps.map (fun p => (p.1.data, p.2.data)) := by
  induction ps with
  | nil =>
    rw [show ('\x7d' :: afterText []) = ['\x7d', ']'] from rfl]
    rw [extractPairsAux_cons_none (matchExtractAt_cons_none (by decide) _)]
    rw [extractPairsAux_cons_none (matchExtractAt_cons_none (by decide) _)]
    simp [extractPairsAux]
  | cons p ps ih =>
    have hp := h p (List.mem_cons_self p ps)
    have hps : ∀ q ∈ ps, '\x27' ∉ q.1.data ∧ '\x27' ∉ q.2.data :=
      fun q hq => h q (List.mem_cons_of_mem p hq)
    rw [show ('\x7d' :: afterText (p :: ps)) =
      ['\x7d', ',', ' ', '\x7b'] ++ (pairTextL p ++ afterText ps) from rfl]
    rw [extractPairsAux_skip (by decide) _]
    rw [extractPairsAux_eq_of_some (pairTextL_append_ne_nil p _)
      (matchExtractAt_canonical hp.1 hp.2 _)]
    rw [ih hps]
    rfl

theorem extractPairsAux_mkConv {p : String × String}
    {ps : List (String × String)}
    (hp : '\x27' ∉ p.1.data ∧ '\x27' ∉ p.2.data)
    (hps : ∀ q ∈ ps, '\x27' ∉ q.1.data ∧ '\x27' ∉ q.2.data) :
    extractPairsAux (mkConvL (p :: ps)) =
      (p :: ps).map (fun q => (q.1.data, q.2.data)) := by
  rw [show mkConvL (p :: ps) =
    ['[', '\x7b'] ++ (pairTextL p ++ afterText ps) from rfl]
  rw [extractPairsAux_skip (by decide) _]
  rw [extractPairsAux_eq_of_some (pairTextL_append_ne_nil p _)
    (matchExtractAt_canonical hp.1 hp.2 _)]
  rw [extractPairsAux_afterText hps]
  rfl

theorem afterText_getLast (ps : List (String × String)) :
    (afterText ps).getLast? = some ']' := by
  induction ps with
  | nil => rfl
  | cons p ps ih =>
    show ([',', ' ', '\x7b'] ++ (pairTextL p ++ afterText ps)).getLast? =
      some ']'
    rw [List.getLast?_append, List.getLast?_append, ih]
    rfl

theorem string_mk_data (s : String) : String.mk s.data = s := rfl

theorem looksBracketed_mkConv (p : String × String)
    (ps : List (String × String)) :
    looksBracketed (mkConv (p :: ps)) = true := by
  show (((mkConvL (p :: ps)).head? == some '[') &&
    ((mkConvL (p :: ps)).getLast? == some ']')) = true
  rw [show mkConvL (p :: ps) =
    ['[', '\x7b'] ++ (pairTextL p ++ afterText ps) from rfl]
  rw [List.getLast?_append, List.getLast?_append, afterText_getLast]
  rfl

theorem replaceBackslashQuote_noquote :
    ∀ l : List Char, (∀ c ∈ l, c ≠ '\x27') → replaceBackslashQuote l = l := by
  intro l
  induction l with
  | nil => intro h; rfl
  | cons c t ih =>
    intro h
    cases t with
    | nil => rfl
    | cons d u =>
      have hd : ¬ d = '\x27' := h d (by simp)
      have hcond : (decide (c = '\\') && decide (d = '\x27')) = false := by
        simp [hd]
      calc replaceBackslashQuote (c :: d :: u)
          = c :: replaceBackslashQuote (d :: u) := by
            simp only [replaceBackslashQuote, hcond]
            simp
        _ = c :: (d :: u) := by
            rw [ih (fun e he => h e (List.mem_cons_of_mem c he))]

theorem fieldDisplay_role (r c : String) :
    fieldDisplay (.jobj [("role", .jstr r), ("content", .jstr c)]) "role"
      = r := by
  have h1 : (("role" : String) = "role") = True := by simp
  have h2 : (("content" : String) = "role") = False := by
    simp only [eq_iff_iff, iff_false]
    decide
  simp [fieldDisplay, lookupJsField, List.filter, jvalDisplay, h1, h2]

theorem fieldDisplay_content (r c : String) :
    fieldDisplay (.jobj [("role", .jstr r), ("content", .jstr c)]) "content"
      = c := by
  have h1 : (("role" : String) = "content") = False := by
    simp only [eq_iff_iff, iff_false]
    decide
  have h2 : (("content" : String) = "content") = True := by simp
  simp [fieldDisplay, lookupJsField, List.filter, jvalDisplay, h1, h2]

theorem renderTurns_pairs (l : List (String × String)) :
    renderTurns (l.map (fun p =>
      JVal.jobj [("role", .jstr p.1), ("content", .jstr p.2)])) =
    String.intercalate "\n\n"
      (l.map (fun p => "**" ++ p.1 ++ "**: " ++ p.2)) := by
  unfold renderTurns
  rw [List.map_map]
  rfl

/-! ### Claim theorems -/

/-- C3: `parseConversation` is total (every throw-site of the source is an
`Option` failure in the embedding, so no exception escapes), and on any
input that does not both start with `[` and end with `]` it returns the
input unchanged. -/
theorem parseConversation_unbracketed_identity :
    ∀ s : String, looksBracketed s = false → parseConversation s = s := by
  intro s h
  simp [parseConversation, h]

theorem parseConversation_unbracketed_identity_witness :
    looksBracketed "not a list at all" = false ∧
    parseConversation "not a list at all" = "not a list at all" :=
  ⟨by decide,
   parseConversation_unbracketed_identity "not a list at all" (by decide)⟩

/-- C4 (amended): for every input in the canonical single-quoted
list-of-dicts shape whose roles and contents contain no single-quote
character, `parseConversation` extracts each role/content pair and renders
them as `**role**: content` joined by blank lines.  (The original claim
additionally promised that contents with escaped single quotes render as
literal apostrophes; the counterexample below refutes that part, as such
inputs take the quote-repair path, which turns the escaped apostrophe into
a double quote.) -/
theorem parseConversation_single_quote_pairs :
    ∀ l : List (String × String), l ≠ [] →
      (∀ p ∈ l, '\x27' ∉ p.1.data ∧ '\x27' ∉ p.2.data) →
      parseConversation (mkConv l) =
        String.intercalate "\n\n"
          (l.map (fun p => "**" ++ p.1 ++ "**: " ++ p.2)) := by
  intro l hne hqf
  obtain ⟨p, ps, rfl⟩ : ∃ p ps, l = p :: ps := by
    cases l with
    | nil => exact absurd rfl hne
    | cons p ps => exact ⟨p, ps, rfl⟩
  have hp := hqf p (List.mem_cons_self p ps)
  have hps : ∀ q ∈ ps, '\x27' ∉ q.1.data ∧ '\x27' ∉ q.2.data :=
    fun q hq => hqf q (List.mem_cons_of_mem p hq)
  have hb := looksBracketed_mkConv p ps
  have ht : singleQuoteTestL (mkConv (p :: ps)).data = true :=
    singleQuoteTestL_mkConv hp hps
  have hx : extractPairsAux (mkConv (p :: ps)).data =
      (p :: ps).map (fun q => (q.1.data, q.2.data)) :=
    extractPairsAux_mkConv hp hps
  simp only [parseConversation, hb, ht, hx, if_true, List.length_map,
    List.length_cons, Nat.succ_pos, gt_iff_lt, Nat.zero_lt_succ, if_pos]
  rw [List.map_map]
  have hmap : (p :: ps).map
      ((fun m : List Char × List Char =>
        JVal.jobj [("role", .jstr (String.mk m.1)),
                   ("content", .jstr (String.mk (replaceBackslashQuote m.2)))])
        ∘ (fun q : String × String => (q.1.data, q.2.data))) =
      (p :: ps).map (fun q =>
        JVal.jobj [("role", .jstr q.1), ("content", .jstr q.2)]) := by
    apply List.map_congr_left
    intro q hq
    have h2 := hqf q hq
    simp only [Function.comp]
    rw [replaceBackslashQuote_noquote _ (fun e he hne2 => h2.2 (hne2 ▸ he))]
  rw [hmap, renderTurns_pairs]

theorem parseConversation_single_quote_pairs_witness :
    mkConv [("user", "hi")] =
      "[\x7b\x27role\x27: \x27user\x27, \x27content\x27: \x27hi\x27\x7d]" ∧
    parseConversation
      "[\x7b\x27role\x27: \x27user\x27, \x27content\x27: \x27hi\x27\x7d]" =
      "**user**: hi" := by
  constructor
  · rfl
  · have h := parseConversation_single_quote_pairs [("user", "hi")]
      (by decide) (by decide)
    exact h

/-- C4 counterexample: the single-quoted input whose content carries an
escaped single quote `it\x5c\x27s ok` is *not* rendered with a literal
apostrophe: the single-quote regex fails on it, the quote-repair path wins,
and the escaped apostrophe surfaces as a double quote. -/
theorem parseConversation_escaped_quote_counterexample :
    parseConversation
        "[\x7b\x27role\x27: \x27user\x27, \x27content\x27: \x27it\x5c\x27s ok\x27\x7d]"
      = "**user**: it\"s ok" ∧
    ("**user**: it\"s ok" : String) ≠ "**user**: it\x27s ok" := by
  constructor
  · rfl
  · decide

/-- C5 (amended): on the double-quoted input whose content carries the
(JSON-illegal) escape `\x5c\x27`, `parseConversation` returns
`**assistant**: It\"s fine` — the first `JSON.parse` throws on the bad
escape, and the quote-repair pass turns the apostrophe into a double
quote. -/
theorem parseConversation_json_escaped_apostrophe :
    parseConversation
        "[\x7b\"role\": \"assistant\", \"content\": \"It\x5c\x27s fine\"\x7d]"
      = "**assistant**: It\"s fine" := by
  rfl

/-- C5 counterexample: the output is not `**assistant**: It\x27s fine` as
the claim states. -/
theorem parseConversation_json_escaped_apostrophe_counterexample :
    parseConversation
        "[\x7b\"role\": \"assistant\", \"content\": \"It\x5c\x27s fine\"\x7d]"
      ≠ "**assistant**: It\x27s fine" := by
  decide

/-- C1: a row with neither id field present emits no output line; the
number of emitted JSONL lines never exceeds the number of input rows; and
on the 3-row sheet whose second row alone has no id, exactly 2 lines are
emitted. -/
theorem conversion_skips_idless_rows :
    (∀ (tr : String → String) (now : String) (i : Nat) (row : Row),
      row.conversationId = none → row.conversation_id = none →
      processRow tr now i row = none) ∧
    (∀ (tr : String → String) (now : String) (i : Nat) (rows : List Row),
      (convertRowsFrom tr now i rows).length ≤ rows.length) ∧
    (jsonlLines (fun t => t) "2024-01-01T00:00:00.000Z"
      [{ conversationId := some (.str "a"), conversation := some "hello" },
       { conversation := some "orphan" },
       { conversation_id := some (.num 7) }]).length = 2 := by
  refine ⟨?_, ?_, ?_⟩
  · intro tr now i row h1 h2
    simp [processRow, jsTruthy, h1, h2]
  · intro tr now i rows
    induction rows generalizing i with
    | nil => simp [convertRowsFrom]
    | cons r rs ih =>
      simp only [convertRowsFrom]
      cases processRow tr now i r with
      | none =>
        simp only [List.length_cons]
        exact Nat.le_succ_of_le (ih (i + 1))
      | some it =>
        simp only [List.length_cons]
        exact Nat.succ_le_succ (ih (i + 1))
  · rfl

theorem conversion_skips_idless_rows_witness :
    processRow (fun t => t) "T" 0 ({} : Row) = none ∧
    (convertRowsFrom (fun t => t) "T" 0 [({} : Row)]).length ≤ 1 :=
  ⟨conversion_skips_idless_rows.1 (fun t => t) "T" 0 {} rfl rfl,
   conversion_skips_idless_rows.2.1 (fun t => t) "T" 0 [{}]⟩

/-- C2: when translation fails — no API key, or the HTTP call fails on the
text — `translateText` returns its input unchanged; hence every record a
failing-translation conversion emits carries the row's original
conversation text verbatim; and the number of emitted records never
depends on the translation function, so a translation failure cannot abort
the conversion. -/
theorem translation_failure_preserves_text :
    (∀ (apiKey : Option String) (call : String → Option String)
       (text : String),
      apiKey = none ∨ call text = none →
      translateText apiKey call text = text) ∧
    (∀ (apiKey : Option String) (call : String → Option String)
       (now : String) (i : Nat) (row : Row) (it : Item),
      (apiKey = none ∨ ∀ t, call t = none) →
      processRow (translateText apiKey call) now i row = some it →
      it.conversation = strOr row.conversation "") ∧
    (∀ (tr1 tr2 : String → String) (now : String) (i : Nat)
       (rows : List Row),
      (convertRowsFrom tr1 now i rows).length =
        (convertRowsFrom tr2 now i rows).length) := by
  have htr : ∀ (apiKey : Option String) (call : String → Option String)
      (text : String), apiKey = none ∨ call text = none →
      translateText apiKey call text = text := by
    intro apiKey call text h
    rcases h with h | h
    · simp [translateText, h]
    · cases apiKey with
      | none => rfl
      | some k => simp [translateText, h]
  refine ⟨htr, ?_, ?_⟩
  · intro apiKey call now i row it hf h
    simp only [processRow] at h
    split at h
    · cases h
    · cases h
      show (if strOr row.conversation "" ≠ "" then
        translateText apiKey call (strOr row.conversation "")
        else strOr row.conversation "") = strOr row.conversation ""
      split
      · apply htr
        rcases hf with hk | hc
        · exact Or.inl hk
        · exact Or.inr (hc _)
      · rfl
  · intro tr1 tr2 now i rows
    induction rows generalizing i with
    | nil => rfl
    | cons r rs ih =>
      by_cases hc :
          (!(jsTruthy r.conversationId) && !(jsTruthy r.conversation_id))
            = true
      · simp only [convertRowsFrom, processRow, if_pos hc]
        exact ih (i + 1)
      · simp only [convertRowsFrom, processRow, if_neg hc,
          List.length_cons]
        exact congrArg Nat.succ (ih (i + 1))

theorem translation_failure_preserves_text_witness :
    translateText none (fun _ => some "ENG") "hola" = "hola" ∧
    (∀ it, processRow (translateText (some "key") (fun _ => none)) "T" 0
        { conversationId := some (.str "a"), conversation := some "hola" }
        = some it → it.conversation = "hola") ∧
    (convertRowsFrom (fun t => t) "T" 0
        [{ conversationId := some (.str "a") }]).length =
      (convertRowsFrom (fun _ => "X") "T" 0
        [{ conversationId := some (.str "a") }]).length := by
  refine ⟨?_, ?_, ?_⟩
  · exact translation_failure_preserves_text.1 none (fun _ => some "ENG")
      "hola" (Or.inl rfl)
  · intro it h
    exact translation_failure_preserves_text.2.1 (some "key")
      (fun _ => none) "T" 0 _ it (Or.inr (fun _ => rfl)) h
  · exact translation_failure_preserves_text.2.2 (fun t => t)
      (fun _ => "X") "T" 0 _

/-- C7 counterexample: on a sheet whose only row has an id but no
timestamp, two conversions run at different wall-clock times produce
different JSONL bytes — the handler defaults `timestamp` to
`new Date().toISOString()`, so re-running is not byte-identical even with
the identity translation stub. -/
theorem conversion_depends_on_clock :
    convertBody (fun t => t) "2024-01-01T00:00:00.000Z"
        [{ conversationId := some (.num 3) }] ≠
      convertBody (fun t => t) "2024-01-02T00:00:00.000Z"
        [{ conversationId := some (.num 3) }] := by
  decide

/-- C7 (amended): re-running the conversion on the same sheet with the same
(deterministic, non-failing) translation stub is byte-identical provided
every row carries a nonempty `timestamp` cell — the only clock dependence
is the `timestamp` default for rows lacking one. -/
theorem conversion_idempotent_with_timestamps :
    ∀ (tr : String → String) (now1 now2 : String) (rows : List Row),
      (∀ r ∈ rows, ∃ ts, r.timestamp = some ts ∧ ts ≠ "") →
      convertBody tr now1 rows = convertBody tr now2 rows := by
  have hrow : ∀ (tr : String → String) (now1 now2 : String) (i : Nat)
      (r : Row), (∃ ts, r.timestamp = some ts ∧ ts ≠ "") →
      processRow tr now1 i r = processRow tr now2 i r := by
    intro tr now1 now2 i r ⟨ts, hts, hne⟩
    simp [processRow, strOr, hts, hne]
  have hfrom : ∀ (tr : String → String) (now1 now2 : String) (i : Nat)
      (rows : List Row),
      (∀ r ∈ rows, ∃ ts, r.timestamp = some ts ∧ ts ≠ "") →
      convertRowsFrom tr now1 i rows = convertRowsFrom tr now2 i rows := by
    intro tr now1 now2 i rows h
    induction rows generalizing i with
    | nil => rfl
    | cons r rs ih =>
      simp only [convertRowsFrom,
        hrow tr now1 now2 i r (h r (List.mem_cons_self r rs))]
      rw [ih (i + 1) (fun x hx => h x (List.mem_cons_of_mem r hx))]
  intro tr now1 now2 rows h
  unfold convertBody jsonlLines convertRows
  rw [hfrom tr now1 now2 0 rows h]

theorem conversion_idempotent_with_timestamps_witness :
    convertBody (fun t => t) "T1"
        [{ conversationId := some (.num 3), timestamp := some "2024" }] =
      convertBody (fun t => t) "T2"
        [{ conversationId := some (.num 3), timestamp := some "2024" }] :=
  conversion_idempotent_with_timestamps (fun t => t) "T1" "T2" _
    (by intro r hr; simp at hr; subst hr; exact ⟨"2024", rfl, by decide⟩)

/-- C9: a row whose two id fields are both present but falsy is skipped
exactly like an id-less row, and every emitted record's `conversationId` is
the (truthy) value of one of the row's two id fields — the positional
`i + 1` fallback of the `||` chain is unreachable. -/
theorem fallback_id_unreachable :
    (∀ (tr : String → String) (now : String) (i : Nat) (row : Row),
      jsTruthy row.conversationId = false →
      jsTruthy row.conversation_id = false →
      processRow tr now i row = none) ∧
    (∀ (tr : String → String) (now : String) (i : Nat) (row : Row)
       (it : Item), processRow tr now i row = some it →
      (∃ v, row.conversationId = some v ∧ v.truthy = true ∧
        it.conversationId = v) ∨
      (∃ v, row.conversation_id = some v ∧ v.truthy = true ∧
        it.conversationId = v)) := by
  constructor
  · intro tr now i row h1 h2
    simp [processRow, h1, h2]
  · intro tr now i row it h
    simp only [processRow] at h
    split at h
    · cases h
    · rename_i hskip
      cases h
      simp only [Bool.and_eq_true, Bool.not_eq_true'] at hskip
      cases hcid : row.conversationId with
      | some v =>
        by_cases hv : v.truthy = true
        · exact Or.inl ⟨v, rfl, hv, by simp [jsOr, hcid, hv]⟩
        · rw [Bool.not_eq_true] at hv
          have hv2 : jsTruthy row.conversationId = false := by
            simp [jsTruthy, hcid, hv]
          cases hcid2 : row.conversation_id with
          | some w =>
            by_cases hw : w.truthy = true
            · refine Or.inr ⟨w, rfl, hw, ?_⟩
              simp [jsOr, hcid, hcid2, hv, hw]
            · rw [Bool.not_eq_true] at hw
              exact absurd ⟨hv2, by simp [jsTruthy, hcid2, hw]⟩ hskip
          | none =>
            exact absurd ⟨hv2, by simp [jsTruthy, hcid2]⟩ hskip
      | none =>
        have hv2 : jsTruthy row.conversationId = false := by
          simp [jsTruthy, hcid]
        cases hcid2 : row.conversation_id with
        | some w =>
          by_cases hw : w.truthy = true
          · refine Or.inr ⟨w, rfl, hw, ?_⟩
            simp [jsOr, hcid, hcid2, hw]
          · rw [Bool.not_eq_true] at hw
            exact absurd ⟨hv2, by simp [jsTruthy, hcid2, hw]⟩ hskip
        | none =>
          exact absurd ⟨hv2, by simp [jsTruthy, hcid2]⟩ hskip

theorem fallback_id_unreachable_witness :
    processRow (fun t => t) "T" 4
        { conversationId := some (.num 0),
          conversation_id := some (.str "") } = none ∧
    (∀ it, processRow (fun t => t) "T" 4
        { conversation_id := some (.num 9) } = some it →
      (∃ v, ({ conversation_id := some (.num 9) } : Row).conversationId
          = some v ∧ v.truthy = true ∧ it.conversationId = v) ∨
      (∃ v, ({ conversation_id := some (.num 9) } : Row).conversation_id
          = some v ∧ v.truthy = true ∧ it.conversationId = v)) := by
  constructor
  · exact fallback_id_unreachable.1 (fun t => t) "T" 4 _ (by decide)
      (by decide)
  · intro it h
    exact fallback_id_unreachable.2 (fun t => t) "T" 4 _ it h

/-- C6: on the failing input — a well-formed `.xlsx` conversion whose
Excel-file unlink rejects after the JSONL stream was created — the request
errors and the generated JSONL temp file is left behind: the inner catch
deletes only the Excel file, so the claimed delete-on-every-exit-path does
not hold for the JSONL file.  (No partial output is returned on this path:
the response is a server error.) -/
theorem conversion_leaks_jsonl_on_unlink_failure :
    runConversion
      { apiKey := none, call := fun _ => none, now := "T",
        unlinkExcelOk := false, unlinkJsonlOk := true }
      { hasFile := true, fileName := "data.xlsx", parseOk := true,
        rows := [{ conversationId := some (.str "c1") }] } =
    { resp := .serverError, excelCreated := true, jsonlCreated := true,
      excelLeft := true, jsonlLeft := true } := by
  rfl

/-- C10: the pre-processing validation of the conversion endpoint inspects
only the uploaded file's name: a name not ending in `.xlsx` is answered
with the 400 message before any temp file is created, and a name ending in
`.xlsx` always passes this validation (the Excel temp file gets created)
regardless of content — unparseable content only surfaces later as a
server error. -/
theorem extension_check_name_only :
    ∀ (env : ConvEnv) (req : ConvRequest), req.hasFile = true →
      (strEndsWith req.fileName ".xlsx" = false →
        (runConversion env req).resp =
          .badRequest "Only .xlsx files are supported" ∧
        (runConversion env req).excelCreated = false ∧
        (runConversion env req).jsonlCreated = false) ∧
      (strEndsWith req.fileName ".xlsx" = true →
        (runConversion env req).excelCreated = true ∧
        (req.parseOk = false →
          (runConversion env req).resp = .serverError)) := by
  intro env req hf
  constructor
  · intro hx
    simp [runConversion, hf, hx]
  · intro hx
    constructor
    · simp only [runConversion, hf, hx]
      simp only [Bool.not_true, Bool.false_eq_true, if_false]
      split_ifs <;> rfl
    · intro hp
      simp [runConversion, hf, hx, hp]

theorem extension_check_name_only_witness :
    (strEndsWith "a.xls" ".xlsx" = false) ∧
    (runConversion
      { apiKey := none, call := fun _ => none, now := "N",
        unlinkExcelOk := true, unlinkJsonlOk := true }
      { hasFile := true, fileName := "a.xls", parseOk := true,
        rows := [] }).resp =
      .badRequest "Only .xlsx files are supported" ∧
    (strEndsWith "b.xlsx" ".xlsx" = true) ∧
    (runConversion
      { apiKey := none, call := fun _ => none, now := "N",
        unlinkExcelOk := true, unlinkJsonlOk := true }
      { hasFile := true, fileName := "b.xlsx", parseOk := false,
        rows := [] }).resp = .serverError := by
  have hbad : strEndsWith "a.xls" ".xlsx" = false := by decide
  have hgood : strEndsWith "b.xlsx" ".xlsx" = true := by decide
  refine ⟨hbad, ?_, hgood, ?_⟩
  · exact ((extension_check_name_only _ _ rfl).1 hbad).1
  · exact ((extension_check_name_only _ _ rfl).2 hgood).2 rfl

/-- C8 counterexample: with requested limit 1 and a server page of 2
conversations, `has_more` is `true` although the page length is not equal
to the limit — the heuristic is `length ≥ limit`, not equality. -/
theorem has_more_size_heuristic_counterexample :
    (getConversationTranscriptsCore [{}, {}] 1).has_more = true ∧
    (getConversationTranscriptsCore [{}, {}] 1).data.length ≠ 1 := by
  constructor
  · rfl
  · decide

/-- C8 (amended): `has_more` is `true` exactly when the returned page
contains at least `limit` conversations (the code compares with `>=`), and
the page the client returns has exactly one conversation per raw
conversation received — no knowledge of further server results enters the
flag. -/
theorem has_more_iff_page_at_least_limit :
    ∀ (rawData : List RawConv) (limit : Nat),
      ((getConversationTranscriptsCore rawData limit).has_more = true ↔
        limit ≤ (getConversationTranscriptsCore rawData limit).data.length) ∧
      (getConversationTranscriptsCore rawData limit).data.length
        = rawData.length := by
  intro raw limit
  constructor
  · simp [getConversationTranscriptsCore]
  · simp [getConversationTranscriptsCore]

end LovApp
